import Mathlib

/-!
Shallow embedding of the bybit-data-dump ingestion engine
(src/bybit_dump/dump.py) and proofs about its claimed properties.

The embedding models:
* the pagination / dedup loop of DataDumper._request_klines (lines 431-518),
* the category derivation DataDumper._get_category (lines 420-429),
* the HTTP error classification of _get_v5_market_kline (lines 386-418) and
  _async_download_symbol_data (lines 599-686),
* the monthly partition skip/refetch decision of
  _async_download_symbol_kline_data (lines 520-593),
* the date clamping of DataDumper.__init__ (lines 164-174).

Network responses are abstracted as parameters: a page source is a function
from (call index, cursor) to the list of rows the upstream returns for that
call, which subsumes every upstream behaviour including a stuck cursor that
serves the same page forever.
-/

namespace BybitDump

/-- One raw kline row as returned by the upstream API: the first column is
the start timestamp in milliseconds (the Python code reads it via
int(k[0])); the remaining columns (open, high, low, close, volume,
turnover) are carried opaquely since no claim depends on them. -/
structure Row where
  ts : Int
  rest : List String
deriving DecidableEq, Repr

/-- Ordering of rows by timestamp, used for the ascending sort
sorted(lst, key=lambda k: int(k[0])) in _request_klines. -/
def rowLE (a b : Row) : Prop := a.ts ≤ b.ts

instance : DecidableRel rowLE := fun a b => Int.decLe a.ts b.ts

instance : IsTotal Row rowLE := ⟨fun a b => Int.le_total a.ts b.ts⟩

instance : IsTrans Row rowLE := ⟨fun _ _ _ hab hbc => le_trans hab hbc⟩

/-- Ascending sort of a page by timestamp, modelling
lst = sorted(lst, key=lambda k: int(k[0])) (dump.py line 460). -/
def sortPage (page : List Row) : List Row := List.insertionSort rowLE page

/-- Timestamp of the last row of a list, modelling int(lst[-1][0])
(dump.py line 473); the default 0 is never used on a nonempty page. -/
def lastRowTs (l : List Row) : Int := ((l.getLast?).map Row.ts).getD 0

/-- The inner for-loop of _request_klines (dump.py lines 462-470): walk the
sorted page, skip rows whose timestamp was already seen or falls outside
the half-open window, otherwise mark the timestamp seen, append the row to
the accumulator and count it as newly accepted. -/
def processPage (startMs endMs : Int) :
    List Row → Finset Int → List Row → Nat → Finset Int × List Row × Nat
  | [], seen, recs, cnt => (seen, recs, cnt)
  | k :: rest, seen, recs, cnt =>
    if k.ts ∈ seen then
      processPage startMs endMs rest seen recs cnt
    else if k.ts < startMs ∨ endMs ≤ k.ts then
      processPage startMs endMs rest seen recs cnt
    else
      processPage startMs endMs rest (insert k.ts seen) (recs ++ [k]) (cnt + 1)

/-- Outcome of one iteration body of the while-loop of _request_klines:
either the loop breaks after this page, or it continues with a new cursor,
seen set and record accumulator. -/
inductive StepRes where
  | stop (recs : List Row)
  | next (cursor : Int) (seen : Finset Int) (recs : List Row)

/-- One iteration body of the while-loop of _request_klines (dump.py lines
448-477): break on an empty page; otherwise sort the page, run the dedup
and window filter, then break if no row was newly accepted or the last
sorted-page timestamp fell strictly behind the cursor, else continue from
that last timestamp plus one millisecond. -/
def stepKlines (startMs endMs : Int) (page : List Row) (cursor : Int)
    (seen : Finset Int) (recs : List Row) : StepRes :=
  if page.isEmpty then .stop recs
  else
    let sorted := sortPage page
    let res := processPage startMs endMs sorted seen recs 0
    let lastTs := lastRowTs sorted
    if res.2.2 = 0 ∨ lastTs < cursor then .stop res.2.1
    else .next (lastTs + 1) res.1 res.2.1

/-- The while-loop of _request_klines (dump.py lines 447-477), with fuel to
make it structurally recursive; a later theorem shows the fuel below never
runs out, so the fuel is an artefact of the embedding, not of the source.
In addition to the Python state (cursor, seen set, accumulated records)
the embedding returns the list of cursor values at which the page source
was called, so that claims about network calls and cursor advancement are
observable. The page source takes the call index as well as the cursor,
which lets one upstream answer differently on successive calls. -/
def loopKlines (fetch : Nat → Int → List Row) (startMs endMs : Int) :
    Nat → Nat → Int → Finset Int → List Row → Option (List Row × List Int)
  | 0, _, _, _, _ => none
  | fuel + 1, i, cursor, seen, recs =>
    if cursor < endMs then
      match stepKlines startMs endMs (fetch i cursor) cursor seen recs with
      | .stop out => some (out, [cursor])
      | .next c2 seen2 recs2 =>
        match loopKlines fetch startMs endMs fuel (i + 1) c2 seen2 recs2 with
        | none => none
        | some (out, calls) => some (out, cursor :: calls)
    else some (recs, [])

/-- Fuel that always suffices for loopKlines: every continuing iteration
accepts at least one fresh timestamp inside the window, and the window
holds only (endMs - startMs) integer timestamps. -/
def fuelFor (startMs endMs : Int) : Nat := (endMs - startMs).toNat + 1

/-- The pagination loop of _request_klines run from its initial state
cursor = start_ms, seen = set(), records = []. -/
def runLoop (fetch : Nat → Int → List Row) (startMs endMs : Int) :
    Option (List Row × List Int) :=
  loopKlines fetch startMs endMs (fuelFor startMs endMs) 0 startMs ∅ []

/-- Final ascending sort of the accumulated records, modelling
df.sort_values("timestamp") on the assembled frame (dump.py line 518);
the empty-records early return (lines 479-491) also yields an empty list. -/
def finalSortRows (recs : List Row) : List Row := List.insertionSort rowLE recs

/-- The whole of _request_klines viewed as a pure function of the page
source and the millisecond window: the assembled, sorted series together
with the trace of cursors passed to the upstream. The none fallback is
unreachable (theorem loopKlines_runs_out_never below shows runLoop always
returns some). -/
def assembleKlines (fetch : Nat → Int → List Row) (startMs endMs : Int) :
    List Row × List Int :=
  match runLoop fetch startMs endMs with
  | some (recs, calls) => (finalSortRows recs, calls)
  | none => ([], [])

/-- Loop invariant of _request_klines: every accumulated record lies in
the half-open request window, record timestamps are pairwise distinct, and
every record timestamp has been marked in the seen set. -/
def InvKl (startMs endMs : Int) (seen : Finset Int) (recs : List Row) : Prop :=
  (∀ r ∈ recs, startMs ≤ r.ts ∧ r.ts < endMs) ∧
  (recs.map Row.ts).Nodup ∧
  ∀ r ∈ recs, r.ts ∈ seen

/-- The successive cursors passed to the page source form a chain in which
each cursor after the first equals the timestamp of the last row of the
previous call's sorted page, plus one; the argument i is the index of the
call that produced the first cursor of the list. -/
def cursorChain (fetch : Nat → Int → List Row) : Nat → List Int → Prop
  | _, [] => True
  | _, [_] => True
  | i, c1 :: c2 :: rest =>
    c2 = lastRowTs (sortPage (fetch i c1)) + 1 ∧ cursorChain fetch (i + 1) (c2 :: rest)

/-- Page source used to refute the stop-guard phrasing of C2: the first
call returns the single row with timestamp 0, every later call returns the
single row with timestamp 5. -/
def fetchStuckEdge : Nat → Int → List Row := fun i _ =>
  if i = 0 then [⟨0, []⟩] else [⟨5, []⟩]

/-- Page source used to refute C6 as stated: the first call returns rows
with timestamps 0 and 10; later calls return the single row with
timestamp 1. -/
def fetchLastNotAccepted : Nat → Int → List Row := fun i _ =>
  if i = 0 then [⟨0, []⟩, ⟨10, []⟩] else [⟨1, []⟩]

/-- The asset type a DataDumper is constructed with (dump.py line 126). -/
inductive AssetType where
  | spot
  | contract
deriving DecidableEq, Repr

/-- Python str.endswith on the symbol strings: the suffix check on the
underlying character sequence. -/
def pyEndsWith (s sfx : String) : Bool := sfx.data.isSuffixOf s.data

/-- DataDumper._get_category (dump.py lines 420-429): spot dumpers always
answer spot; contract symbols ending USDT or USDC are linear, symbols
ending USD are inverse, anything else raises ValueError. -/
def getCategory (assetType : AssetType) (symbol : String) : Except String String :=
  match assetType with
  | .spot => .ok "spot"
  | .contract =>
    if pyEndsWith symbol "USDT" || pyEndsWith symbol "USDC" then .ok "linear"
    else if pyEndsWith symbol "USD" then .ok "inverse"
    else .error ("Symbol " ++ symbol ++ " formated wrongly, or not supported")

/-- _request_klines including the category derivation that runs before the
pagination loop (dump.py line 440): the only exception the function itself
can raise on the embedded path is the ValueError of _get_category; the
function performs no range validation of start_time against end_time. -/
def requestKlinesChecked (assetType : AssetType) (symbol : String)
    (fetch : Nat → Int → List Row) (startMs endMs : Int) :
    Except String (List Row) :=
  match getCategory assetType symbol with
  | .error e => .error e
  | .ok _ => .ok (assembleKlines fetch startMs endMs).1

/-- Result of one call to the coroutine _get_v5_market_kline: the parsed
response body, or a raised exception (tenacity.TryAgain for the statuses
the code marks retryable, the original ClientResponseError otherwise). -/
inductive KlineCallRes where
  | ok (data : List (List String))
  | tryAgainExc
  | clientResponseError (status : Nat)
deriving DecidableEq, Repr

/-- _get_v5_market_kline (dump.py lines 386-418) as a function of the HTTP
status and body of the single upstream response it reads:
response.raise_for_status() raises for any status of at least 400; the
except branch re-raises tenacity.TryAgain for 500/502/503/504/429/408 and
re-raises the original error for every other error status. The
tenacity.retry decorator above the function (lines 382-385) is commented
out in the source, so one call performs exactly one HTTP attempt and
whichever exception arises propagates directly to the caller. -/
def getV5MarketKline (status : Nat) (body : List (List String)) : KlineCallRes :=
  if status < 400 then .ok body
  else if status = 500 ∨ status = 502 ∨ status = 503 ∨ status = 504
      ∨ status = 429 ∨ status = 408 then .tryAgainExc
  else .clientResponseError status

/-- Result of one call to _async_download_symbol_data: a returned parquet
path (freshly written or already cached), the None return for a 404, or a
raised exception. -/
inductive DownloadRes where
  | savedPath (p : String)
  | cachedPath (p : String)
  | noData
  | tryAgainExc
  | clientResponseError (status : Nat)
deriving DecidableEq, Repr

/-- _async_download_symbol_data (dump.py lines 599-686) as a function of
the bulk file-dump URL's HTTP status; fs is the list of files on disk and
parquetPath the deterministic target path computed from the generated URL.
If the parquet file already exists the function returns it without any
network call (lines 618-620); otherwise a 404 logs a warning and returns
None writing nothing (lines 627-631), the statuses 500/502/503/504/429/408
raise tenacity.TryAgain (lines 632-633), any other error status re-raises
the original error (lines 634-635), and a success downloads, converts and
leaves exactly the parquet file on disk (lines 637-685; the intermediate
zip file is removed at line 685, and its contents are abstracted since no
claim depends on them). -/
def downloadSymbolData (fs : List String) (parquetPath : String) (status : Nat) :
    DownloadRes × List String :=
  if parquetPath ∈ fs then (.cachedPath parquetPath, fs)
  else if status = 404 then (.noData, fs)
  else if status = 500 ∨ status = 502 ∨ status = 503 ∨ status = 504
      ∨ status = 429 ∨ status = 408 then (.tryAgainExc, fs)
  else if 400 ≤ status then (.clientResponseError status, fs)
  else (.savedPath parquetPath, parquetPath :: fs)

/-- A UTC calendar month: year and month number (1 to 12). -/
structure Month where
  y : Int
  m : Int
deriving DecidableEq, Repr

/-- First day of the month after d (dump.py lines 550-555). -/
def nextMonth (d : Month) : Month :=
  if d.m = 12 then ⟨d.y + 1, 1⟩ else ⟨d.y, d.m + 1⟩

/-- Months in chronological order: the index of a month on the time line. -/
def monthIdx (d : Month) : Int := 12 * d.y + d.m

/-- The supported kline frequencies, FREQ_TYPE (dump.py lines 17-30). -/
inductive Freq where
  | m1
  | m5
  | m15
  | m30
  | m60
  | h2
  | h4
  | h6
  | h12
  | d1
  | w1
  | mo1
deriving DecidableEq, Repr

/-- _freq_map (dump.py lines 66-79): the upstream interval token of each
supported frequency. -/
def freqMap : Freq → String
  | .m1 => "1"
  | .m5 => "5"
  | .m15 => "15"
  | .m30 => "30"
  | .m60 => "60"
  | .h2 => "120"
  | .h4 => "240"
  | .h6 => "360"
  | .h12 => "720"
  | .d1 => "D"
  | .w1 => "W"
  | .mo1 => "M"

/-- The deterministic partition file path of
_async_download_symbol_kline_data (dump.py lines 557-561):
save_dir/klines/freq/symbol_kline_YYYY-MM.parquet is a function of
exactly these three components. -/
structure KlinePath where
  symbol : String
  freq : Freq
  month : Month
deriving DecidableEq, Repr

/-- Lookup in the on-disk partition store, modelled as an association list
from partition path to stored contents. -/
def lookupStore : List (KlinePath × List Row) → KlinePath → Option (List Row)
  | [], _ => none
  | (p, df) :: rest, q => if p = q then some df else lookupStore rest q

/-- Write-through of df.to_parquet(file_path) on the partition store: the
entry at the path is replaced if present, appended otherwise. -/
def setStore : List (KlinePath × List Row) → KlinePath → List Row →
    List (KlinePath × List Row)
  | [], q, df => [(q, df)]
  | (p, d0) :: rest, q, df =>
    if p = q then (q, df) :: rest else (p, d0) :: setStore rest q df

/-- _async_download_symbol_kline_data (dump.py lines 520-593) as a pure
state transformer. The input date is already normalized to its UTC month d
(lines 546-555). month_finished compares now_utc to next_month_start
(lines 564-565); since next_month_start is the first instant of its month,
the comparison holds exactly when the calendar month containing now_utc is
at least that month, so the clock is modelled by the month nowMonth
containing now. fetchMonth models the call to _request_klines: none is the
except branch (lines 582-586, the function returns None and writes
nothing), some df a successful fetch whose frame is then written to the
partition path (line 588). The result triple is (return value, store after
the call, list of _request_klines windows requested during the call). -/
def ensureKline (nowMonth : Month)
    (fetchMonth : String → Freq → Month → Month → Option (List Row))
    (fs : List (KlinePath × List Row)) (symbol : String) (freq : Freq)
    (d : Month) :
    Option KlinePath × List (KlinePath × List Row) × List (Month × Month) :=
  let path : KlinePath := ⟨symbol, freq, d⟩
  if (lookupStore fs path).isSome ∧ monthIdx (nextMonth d) ≤ monthIdx nowMonth then
    (some path, fs, [])
  else
    match fetchMonth symbol freq d (nextMonth d) with
    | none => (none, fs, [(d, nextMonth d)])
    | some df => (some path, setStore fs path df, [(d, nextMonth d)])

/-- datetime(2020, 12, 18, 0, 0, 0, tzinfo=timezone.utc) as a millisecond
timestamp, the default start date of DataDumper.__init__ (dump.py
line 170). -/
def defaultStartDate : Int := 1608249600000

/-- The end-date clamping of DataDumper.__init__ (dump.py lines 171-172):
an omitted end date, or one later than now1d, becomes now1d, where now1d
stands for datetime.now(timezone.utc) - timedelta(days=1) (line 167).
Datetimes are modelled as integer timestamps; safe_dt only attaches the
UTC zone and is the identity on the time line. -/
def clampEndDate (now1d : Int) (endDate : Option Int) : Int :=
  match endDate with
  | none => now1d
  | some e => if e > now1d then now1d else e

/-- The date handling of DataDumper.__init__ (dump.py lines 164-174):
default the start date, clamp the end date, and raise ValueError when the
start date ends up after the end date. -/
def initDates (now1d : Int) (startDate endDate : Option Int) :
    Except String (Int × Int) :=
  let s := startDate.getD defaultStartDate
  let e := clampEndDate now1d endDate
  if s > e then .error "Start date must be before end date"
  else .ok (s, e)

theorem processPage_seen_subset (startMs endMs : Int) (page : List Row) :
    ∀ (seen : Finset Int) (recs : List Row) (cnt : Nat),
      seen ⊆ (processPage startMs endMs page seen recs cnt).1 := by
  induction page with
  | nil => intro seen recs cnt; simp [processPage]
  | cons k rest ih =>
    intro seen recs cnt
    by_cases h1 : k.ts ∈ seen
    · simp only [processPage, if_pos h1]
      exact ih seen recs cnt
    · by_cases h2 : k.ts < startMs ∨ endMs ≤ k.ts
      · simp only [processPage, if_neg h1, if_pos h2]
        exact ih seen recs cnt
      · simp only [processPage, if_neg h1, if_neg h2]
        exact (Finset.subset_insert k.ts seen).trans (ih _ _ _)

theorem processPage_card (startMs endMs : Int) (page : List Row) :
    ∀ (seen : Finset Int) (recs : List Row) (cnt : Nat),
      (processPage startMs endMs page seen recs cnt).1.card + cnt
        = seen.card + (processPage startMs endMs page seen recs cnt).2.2 := by
  induction page with
  | nil => intro seen recs cnt; simp [processPage]
  | cons k rest ih =>
    intro seen recs cnt
    by_cases h1 : k.ts ∈ seen
    · simp only [processPage, if_pos h1]
      exact ih seen recs cnt
    · by_cases h2 : k.ts < startMs ∨ endMs ≤ k.ts
      · simp only [processPage, if_neg h1, if_pos h2]
        exact ih seen recs cnt
      · simp only [processPage, if_neg h1, if_neg h2]
        have h := ih (insert k.ts seen) (recs ++ [k]) (cnt + 1)
        have hcard : (insert k.ts seen).card = seen.card + 1 :=
          Finset.card_insert_of_not_mem h1
        omega

theorem processPage_seen_Ico (startMs endMs : Int) (page : List Row) :
    ∀ (seen : Finset Int) (recs : List Row) (cnt : Nat),
      seen ⊆ Finset.Ico startMs endMs →
      (processPage startMs endMs page seen recs cnt).1 ⊆ Finset.Ico startMs endMs := by
  induction page with
  | nil => intro seen recs cnt h; simpa [processPage] using h
  | cons k rest ih =>
    intro seen recs cnt h
    by_cases h1 : k.ts ∈ seen
    · simp only [processPage, if_pos h1]
      exact ih seen recs cnt h
    · by_cases h2 : k.ts < startMs ∨ endMs ≤ k.ts
      · simp only [processPage, if_neg h1, if_pos h2]
        exact ih seen recs cnt h
      · simp only [processPage, if_neg h1, if_neg h2]
        push_neg at h2
        refine ih _ _ _ (Finset.insert_subset ?_ h)
        exact Finset.mem_Ico.2 ⟨h2.1, h2.2⟩

theorem processPage_inv (startMs endMs : Int) (page : List Row) :
    ∀ (seen : Finset Int) (recs : List Row) (cnt : Nat),
      InvKl startMs endMs seen recs →
      InvKl startMs endMs (processPage startMs endMs page seen recs cnt).1
        (processPage startMs endMs page seen recs cnt).2.1 := by
  induction page with
  | nil => intro seen recs cnt h; simpa [processPage] using h
  | cons k rest ih =>
    intro seen recs cnt h
    by_cases h1 : k.ts ∈ seen
    · simp only [processPage, if_pos h1]
      exact ih seen recs cnt h
    · by_cases h2 : k.ts < startMs ∨ endMs ≤ k.ts
      · simp only [processPage, if_neg h1, if_pos h2]
        exact ih seen recs cnt h
      · simp only [processPage, if_neg h1, if_neg h2]
        refine ih _ _ _ ?_
        obtain ⟨hrange, hnodup, hseen⟩ := h
        push_neg at h2
        refine ⟨?_, ?_, ?_⟩
        · intro r hr
          rcases List.mem_append.1 hr with hr | hr
          · exact hrange r hr
          · have : r = k := by simpa using hr
            subst this
            exact ⟨h2.1, h2.2⟩
        · rw [List.map_append]
          refine List.Nodup.append hnodup (List.nodup_singleton k.ts) ?_
          intro a ha hb
          have hak : a = k.ts := by simpa using hb
          subst hak
          obtain ⟨r, hr, hra⟩ := List.mem_map.1 ha
          exact h1 (hra ▸ hseen r hr)
        · intro r hr
          rcases List.mem_append.1 hr with hr | hr
          · exact Finset.mem_insert_of_mem (hseen r hr)
          · have : r = k := by simpa using hr
            subst this
            exact Finset.mem_insert_self _ _

theorem stepKlines_stop_cases (startMs endMs : Int) (page : List Row)
    (cursor : Int) (seen : Finset Int) (recs : List Row) (out : List Row)
    (h : stepKlines startMs endMs page cursor seen recs = .stop out) :
    out = recs ∨ out = (processPage startMs endMs (sortPage page) seen recs 0).2.1 := by
  unfold stepKlines at h
  by_cases he : page.isEmpty
  · rw [if_pos he] at h
    exact Or.inl (StepRes.stop.inj h).symm
  · rw [if_neg he] at h
    simp only [] at h
    by_cases hg : (processPage startMs endMs (sortPage page) seen recs 0).2.2 = 0
        ∨ lastRowTs (sortPage page) < cursor
    · rw [if_pos hg] at h
      exact Or.inr (StepRes.stop.inj h).symm
    · rw [if_neg hg] at h
      cases h

theorem stepKlines_next_eq (startMs endMs : Int) (page : List Row)
    (cursor : Int) (seen : Finset Int) (recs : List Row) (c2 : Int)
    (seen2 : Finset Int) (recs2 : List Row)
    (h : stepKlines startMs endMs page cursor seen recs = .next c2 seen2 recs2) :
    c2 = lastRowTs (sortPage page) + 1 ∧
    seen2 = (processPage startMs endMs (sortPage page) seen recs 0).1 ∧
    recs2 = (processPage startMs endMs (sortPage page) seen recs 0).2.1 ∧
    (processPage startMs endMs (sortPage page) seen recs 0).2.2 ≠ 0 := by
  unfold stepKlines at h
  by_cases he : page.isEmpty
  · rw [if_pos he] at h
    cases h
  · rw [if_neg he] at h
    simp only [] at h
    by_cases hg : (processPage startMs endMs (sortPage page) seen recs 0).2.2 = 0
        ∨ lastRowTs (sortPage page) < cursor
    · rw [if_pos hg] at h
      cases h
    · rw [if_neg hg] at h
      obtain ⟨hc, hs, hr⟩ := StepRes.next.inj h
      push_neg at hg
      exact ⟨hc.symm, hs.symm, hr.symm, hg.1⟩

theorem loopKlines_inv (fetch : Nat → Int → List Row) (startMs endMs : Int) :
    ∀ (fuel i : Nat) (cursor : Int) (seen : Finset Int) (recs : List Row)
      (out : List Row) (calls : List Int),
      InvKl startMs endMs seen recs →
      loopKlines fetch startMs endMs fuel i cursor seen recs = some (out, calls) →
      (∀ r ∈ out, startMs ≤ r.ts ∧ r.ts < endMs) ∧ (out.map Row.ts).Nodup := by
  intro fuel
  induction fuel with
  | zero =>
    intro i cursor seen recs out calls hinv h
    simp [loopKlines] at h
  | succ fuel ih =>
    intro i cursor seen recs out calls hinv h
    rw [loopKlines] at h
    by_cases hc : cursor < endMs
    · rw [if_pos hc] at h
      rcases hstep : stepKlines startMs endMs (fetch i cursor) cursor seen recs with
        out2 | ⟨c2, seen2, recs2⟩
      · simp only [hstep, Option.some.injEq, Prod.mk.injEq] at h
        obtain ⟨rfl, rfl⟩ := h
        rcases stepKlines_stop_cases startMs endMs (fetch i cursor) cursor seen recs out2 hstep with
          h2 | h2
        · subst h2
          exact ⟨hinv.1, hinv.2.1⟩
        · subst h2
          have := processPage_inv startMs endMs (sortPage (fetch i cursor)) seen recs 0 hinv
          exact ⟨this.1, this.2.1⟩
      · simp only [hstep] at h
        rcases hrec : loopKlines fetch startMs endMs fuel (i + 1) c2 seen2 recs2 with
          _ | ⟨out3, calls3⟩
        · rw [hrec] at h
          cases h
        · simp only [hrec, Option.some.injEq, Prod.mk.injEq] at h
          obtain ⟨rfl, rfl⟩ := h
          obtain ⟨_, hs, hr, _⟩ :=
            stepKlines_next_eq startMs endMs (fetch i cursor) cursor seen recs c2 seen2 recs2 hstep
          have hinv2 : InvKl startMs endMs seen2 recs2 := by
            rw [hs, hr]
            exact processPage_inv startMs endMs (sortPage (fetch i cursor)) seen recs 0 hinv
          exact ih (i + 1) c2 seen2 recs2 out3 calls3 hinv2 hrec
    · rw [if_neg hc] at h
      simp only [Option.some.injEq, Prod.mk.injEq] at h
      obtain ⟨rfl, rfl⟩ := h
      exact ⟨hinv.1, hinv.2.1⟩

theorem loopKlines_isSome (fetch : Nat → Int → List Row) (startMs endMs : Int) :
    ∀ (fuel i : Nat) (cursor : Int) (seen : Finset Int) (recs : List Row),
      seen ⊆ Finset.Ico startMs endMs →
      (endMs - startMs).toNat - seen.card < fuel →
      (loopKlines fetch startMs endMs fuel i cursor seen recs).isSome := by
  intro fuel
  induction fuel with
  | zero =>
    intro i cursor seen recs hsub hfuel
    omega
  | succ fuel ih =>
    intro i cursor seen recs hsub hfuel
    rw [loopKlines]
    by_cases hc : cursor < endMs
    · rw [if_pos hc]
      rcases hstep : stepKlines startMs endMs (fetch i cursor) cursor seen recs with
        out2 | ⟨c2, seen2, recs2⟩
      · simp
      · obtain ⟨_, hs, _, hcnt⟩ :=
          stepKlines_next_eq startMs endMs (fetch i cursor) cursor seen recs c2 seen2 recs2 hstep
        have hsub2 : seen2 ⊆ Finset.Ico startMs endMs := by
          rw [hs]
          exact processPage_seen_Ico startMs endMs (sortPage (fetch i cursor)) seen recs 0 hsub
        have hcard2 : seen2.card = seen.card
            + (processPage startMs endMs (sortPage (fetch i cursor)) seen recs 0).2.2 := by
          rw [hs]
          have := processPage_card startMs endMs (sortPage (fetch i cursor)) seen recs 0
          omega
        have hle : seen2.card ≤ (endMs - startMs).toNat := by
          have h1 := Finset.card_le_card hsub2
          rwa [Int.card_Ico] at h1
        have hfuel2 : (endMs - startMs).toNat - seen2.card < fuel := by omega
        have := ih (i + 1) c2 seen2 recs2 hsub2 hfuel2
        rcases hrec : loopKlines fetch startMs endMs fuel (i + 1) c2 seen2 recs2 with
          _ | ⟨out3, calls3⟩
        · rw [hrec] at this
          simp at this
        · simp [hrec]
    · rw [if_neg hc]
      simp

theorem loopKlines_chain (fetch : Nat → Int → List Row) (startMs endMs : Int) :
    ∀ (fuel i : Nat) (cursor : Int) (seen : Finset Int) (recs : List Row)
      (out : List Row) (calls : List Int),
      loopKlines fetch startMs endMs fuel i cursor seen recs = some (out, calls) →
      cursorChain fetch i calls ∧ (calls = [] ∨ ∃ t, calls = cursor :: t) := by
  intro fuel
  induction fuel with
  | zero =>
    intro i cursor seen recs out calls h
    simp [loopKlines] at h
  | succ fuel ih =>
    intro i cursor seen recs out calls h
    rw [loopKlines] at h
    by_cases hc : cursor < endMs
    · rw [if_pos hc] at h
      rcases hstep : stepKlines startMs endMs (fetch i cursor) cursor seen recs with
        out2 | ⟨c2, seen2, recs2⟩
      · simp only [hstep, Option.some.injEq, Prod.mk.injEq] at h
        obtain ⟨rfl, rfl⟩ := h
        exact ⟨trivial, Or.inr ⟨[], rfl⟩⟩
      · simp only [hstep] at h
        rcases hrec : loopKlines fetch startMs endMs fuel (i + 1) c2 seen2 recs2 with
          _ | ⟨out3, calls3⟩
        · rw [hrec] at h
          cases h
        · simp only [hrec, Option.some.injEq, Prod.mk.injEq] at h
          obtain ⟨rfl, rfl⟩ := h
          obtain ⟨hchain3, hshape3⟩ := ih (i + 1) c2 seen2 recs2 out3 calls3 hrec
          obtain ⟨hc2, _, _, _⟩ :=
            stepKlines_next_eq startMs endMs (fetch i cursor) cursor seen recs c2 seen2 recs2 hstep
          refine ⟨?_, Or.inr ⟨calls3, rfl⟩⟩
          rcases hshape3 with rfl | ⟨t, rfl⟩
          · exact trivial
          · exact ⟨hc2, hchain3⟩
    · rw [if_neg hc] at h
      simp only [Option.some.injEq, Prod.mk.injEq] at h
      obtain ⟨rfl, rfl⟩ := h
      exact ⟨trivial, Or.inl rfl⟩

/-- C1: every series assembled by _request_klines has strictly increasing
(hence unique) timestamps, and every returned row's timestamp t satisfies
start_ms ≤ t < end_ms; this holds for every page source, so in particular
for whatever the upstream API returns. -/
theorem requestKlines_sorted_unique_in_window (fetch : Nat → Int → List Row)
    (startMs endMs : Int) :
    List.Pairwise (fun a b : Row => a.ts < b.ts) (assembleKlines fetch startMs endMs).1 ∧
    ∀ r ∈ (assembleKlines fetch startMs endMs).1, startMs ≤ r.ts ∧ r.ts < endMs := by
  unfold assembleKlines
  rcases hrun : runLoop fetch startMs endMs with _ | ⟨recs, calls⟩
  · simp
  · have hinv0 : InvKl startMs endMs ∅ [] := by simp [InvKl]
    have h := loopKlines_inv fetch startMs endMs (fuelFor startMs endMs) 0 startMs ∅ []
      recs calls hinv0 hrun
    have hperm : (finalSortRows recs).Perm recs := List.perm_insertionSort rowLE recs
    constructor
    · have hsorted : List.Sorted rowLE (finalSortRows recs) :=
        List.sorted_insertionSort rowLE recs

      have hnodup : ((finalSortRows recs).map Row.ts).Nodup :=
        ((hperm.map Row.ts).nodup_iff).2 h.2
      have hne : List.Pairwise (fun a b : Row => a.ts ≠ b.ts) (finalSortRows recs) :=
        (List.pairwise_map).1 hnodup
      exact (hsorted.and hne).imp fun hab => lt_of_le_of_ne hab.1 hab.2
    · intro r hr
      exact h.1 r ((hperm.mem_iff).1 hr)

/-- Witness for C1 at a concrete page source: the single returned row with
timestamp 3 lies inside the window [0, 10). -/
theorem requestKlines_sorted_unique_in_window_witness :
    (0 : Int) ≤ (3 : Int) ∧ (3 : Int) < (10 : Int) :=
  (requestKlines_sorted_unique_in_window (fun _ _ => [⟨3, []⟩]) 0 10).2 ⟨3, []⟩ (by decide)

/-- C2 (amended): for every page source, including one that returns the
same non-empty page on every call, the pagination loop of _request_klines
terminates: with fuel equal to the window size plus one the fueled
embedding of the while-loop always returns a value, because every
continuing iteration accepts at least one fresh timestamp from the finite
window. The stop guard as implemented fires when a page yields zero newly
accepted rows or when the last sorted-page timestamp is strictly below the
previous cursor. -/
theorem requestKlines_pagination_terminates (fetch : Nat → Int → List Row)
    (startMs endMs : Int) :
    ∃ out, runLoop fetch startMs endMs = some out := by
  have h := loopKlines_isSome fetch startMs endMs (fuelFor startMs endMs) 0 startMs ∅ []
    (Finset.empty_subset _) (by simp [fuelFor])
  exact Option.isSome_iff_exists.1 h

/-- Counterexample to C2 as stated: on the window [0, 10) the first page's
last timestamp is 0, equal to the previous cursor, so it does not advance
past the cursor; the claim says the loop then stops, yet the loop
continues (the implemented guard is strictly less-than): the trace shows
three upstream calls at cursors 0, 1 and 6, and the row with timestamp 5
served only on the later calls is accepted into the result. -/
theorem requestKlines_stop_guard_counterexample :
    assembleKlines fetchStuckEdge 0 10 = ([⟨0, []⟩, ⟨5, []⟩], [0, 1, 6]) := by decide

theorem assembleKlines_empty_of_start_after_end (fetch : Nat → Int → List Row)
    (startMs endMs : Int) (h : endMs < startMs) :
    assembleKlines fetch startMs endMs = ([], []) := by
  have hns : ¬ startMs < endMs := by omega
  unfold assembleKlines runLoop
  rw [fuelFor]
  rw [loopKlines, if_neg hns]
  rfl

/-- C6 (amended): whenever the pagination loop of _request_klines performs
another upstream call, the new cursor equals the timestamp of the last row
of the previous call's sorted page plus one; that last row need not be an
accepted row (it may be a duplicate or lie outside the window). -/
theorem requestKlines_cursor_advance (fetch : Nat → Int → List Row)
    (startMs endMs : Int) :
    cursorChain fetch 0 (assembleKlines fetch startMs endMs).2 := by
  unfold assembleKlines
  rcases hrun : runLoop fetch startMs endMs with _ | ⟨recs, calls⟩
  · exact trivial
  · exact (loopKlines_chain fetch startMs endMs (fuelFor startMs endMs) 0 startMs ∅ []
      recs calls hrun).1

/-- Counterexample to C6 as stated: on the window [0, 10) the first page
accepts exactly the row with timestamp 0 (its other row, timestamp 10,
falls outside the window), so the last accepted row has timestamp 0; were
the next cursor 0 + 1 = 1 < 10 as the claim states, the loop would issue a
second call and accept the row with timestamp 1 that the source serves
afterwards. Instead the cursor is set to the last page row's timestamp
plus one, 11, the loop exits, the trace holds the single call at cursor 0
and the result omits timestamp 1. -/
theorem requestKlines_cursor_advance_counterexample :
    assembleKlines fetchLastNotAccepted 0 10 = ([⟨0, []⟩], [0]) := by decide

/-- C5 (amended): calling the series assembler with start_time strictly
after end_time (start_ms > end_ms) returns a well-formed empty series via
the normal return path (the loop body and the empty-records early return
never engage a row): no InvalidRange error is raised; the only error the
function can raise on this path is the invalid-symbol ValueError of the
category derivation, which is independent of the range. -/
theorem requestKlines_start_after_end_ok_empty (assetType : AssetType)
    (symbol : String) (fetch : Nat → Int → List Row) (startMs endMs : Int)
    (c : String) (h : endMs < startMs)
    (hcat : getCategory assetType symbol = .ok c) :
    requestKlinesChecked assetType symbol fetch startMs endMs = .ok [] := by
  unfold requestKlinesChecked
  rw [hcat, assembleKlines_empty_of_start_after_end fetch startMs endMs h]

/-- Witness for C5 (amended) at the concrete window start_ms = 100 >
end_ms = 0 for the contract symbol BTCUSDT. -/
theorem requestKlines_start_after_end_ok_empty_witness :
    requestKlinesChecked .contract "BTCUSDT" (fun _ _ => [⟨50, []⟩]) 100 0
      = .ok [] :=
  requestKlines_start_after_end_ok_empty .contract "BTCUSDT"
    (fun _ _ => [⟨50, []⟩]) 100 0 "linear" (by decide) rfl

/-- Counterexample to C5 as stated: with start_ms = 100 strictly after
end_ms = 0, the call returns the ok result of an empty series instead of
failing with an InvalidRange error; the source performs no range check in
_request_klines (the only ValueError with that message lives in
_get_date_range and in the constructor, not in the assembler). -/
theorem requestKlines_invalid_range_counterexample :
    requestKlinesChecked .contract "BTCUSDT" (fun _ _ => [⟨50, []⟩]) 100 0
      = .ok [] ∧
    ∀ msg, requestKlinesChecked .contract "BTCUSDT" (fun _ _ => [⟨50, []⟩]) 100 0
      ≠ .error msg := by
  constructor
  · exact requestKlines_start_after_end_ok_empty .contract "BTCUSDT"
      (fun _ _ => [⟨50, []⟩]) 100 0 "linear" (by decide) rfl
  · intro msg h
    rw [requestKlines_start_after_end_ok_empty .contract "BTCUSDT"
      (fun _ _ => [⟨50, []⟩]) 100 0 "linear" (by decide) rfl] at h
    cases h

theorem lookupStore_setStore_self (fs : List (KlinePath × List Row))
    (p : KlinePath) (df : List Row) :
    lookupStore (setStore fs p df) p = some df := by
  induction fs with
  | nil => simp [setStore, lookupStore]
  | cons hd rest ih =>
    obtain ⟨q, d0⟩ := hd
    by_cases h : q = p
    · simp [setStore, lookupStore, h]
    · simp only [setStore, lookupStore, if_neg h]
      exact ih

/-- C3: for every (symbol, freq, month) whose month is complete (its end
boundary is at or before the month of now) and whose partition file
exists, _async_download_symbol_kline_data returns the cached path with an
empty list of _request_klines invocations, i.e. no network I/O; hence,
when the fetch succeeds, calling it twice performs at most one fetch in
the first call and the second call is a pure skip that leaves the store
untouched. -/
theorem ensureKline_complete_cached_skips (nowMonth : Month)
    (fetchMonth : String → Freq → Month → Month → Option (List Row))
    (fs : List (KlinePath × List Row)) (symbol : String) (freq : Freq)
    (d : Month) (df : List Row)
    (hfin : monthIdx (nextMonth d) ≤ monthIdx nowMonth)
    (hok : fetchMonth symbol freq d (nextMonth d) = some df) :
    (∀ fs0, (lookupStore fs0 ⟨symbol, freq, d⟩).isSome →
      ensureKline nowMonth fetchMonth fs0 symbol freq d
        = (some ⟨symbol, freq, d⟩, fs0, [])) ∧
    (ensureKline nowMonth fetchMonth fs symbol freq d).2.2.length ≤ 1 ∧
    ensureKline nowMonth fetchMonth
        (ensureKline nowMonth fetchMonth fs symbol freq d).2.1 symbol freq d
      = (some ⟨symbol, freq, d⟩,
         (ensureKline nowMonth fetchMonth fs symbol freq d).2.1, []) := by
  have hskip : ∀ fs0, (lookupStore fs0 (⟨symbol, freq, d⟩ : KlinePath)).isSome →
      ensureKline nowMonth fetchMonth fs0 symbol freq d
        = (some ⟨symbol, freq, d⟩, fs0, []) := by
    intro fs0 hex
    unfold ensureKline
    rw [if_pos ⟨hex, hfin⟩]
  refine ⟨hskip, ?_⟩
  by_cases hex : (lookupStore fs (⟨symbol, freq, d⟩ : KlinePath)).isSome
  · rw [hskip fs hex]
    exact ⟨by simp, hskip fs hex⟩
  · have h1 : ensureKline nowMonth fetchMonth fs symbol freq d
        = (some ⟨symbol, freq, d⟩, setStore fs ⟨symbol, freq, d⟩ df,
           [(d, nextMonth d)]) := by
      unfold ensureKline
      rw [if_neg (fun hand => hex hand.1), hok]
    rw [h1]
    refine ⟨by simp, hskip _ ?_⟩
    rw [lookupStore_setStore_self]
    rfl

/-- Witness for C3 at a concrete complete month: now is 2025-03, the
partition is 2025-01 (complete) and its file exists in the store. -/
theorem ensureKline_complete_cached_skips_witness :
    ensureKline ⟨2025, 3⟩ (fun _ _ _ _ => some [⟨1, []⟩])
        [(⟨"BTCUSDT", .m1, ⟨2025, 1⟩⟩, [⟨0, []⟩])] "BTCUSDT" .m1 ⟨2025, 1⟩
      = (some ⟨"BTCUSDT", .m1, ⟨2025, 1⟩⟩,
         [(⟨"BTCUSDT", .m1, ⟨2025, 1⟩⟩, [⟨0, []⟩])], []) :=
  (ensureKline_complete_cached_skips ⟨2025, 3⟩ (fun _ _ _ _ => some [⟨1, []⟩])
    [(⟨"BTCUSDT", .m1, ⟨2025, 1⟩⟩, [⟨0, []⟩])] "BTCUSDT" .m1 ⟨2025, 1⟩
    [⟨1, []⟩] (by decide) rfl).1
    [(⟨"BTCUSDT", .m1, ⟨2025, 1⟩⟩, [⟨0, []⟩])] (by decide)

/-- C4: for every (symbol, freq, month) whose month is still in progress,
_async_download_symbol_kline_data performs the _request_klines fetch for
the whole month [month_start, next_month_start) even when the partition
file already exists, and on success writes the fresh frame to the
deterministic partition path, overwriting the cached contents. -/
theorem ensureKline_incomplete_refetches (nowMonth : Month)
    (fetchMonth : String → Freq → Month → Month → Option (List Row))
    (fs : List (KlinePath × List Row)) (symbol : String) (freq : Freq)
    (d : Month) (df old : List Row)
    (hfin : ¬ monthIdx (nextMonth d) ≤ monthIdx nowMonth)
    (hex : lookupStore fs ⟨symbol, freq, d⟩ = some old)
    (hok : fetchMonth symbol freq d (nextMonth d) = some df) :
    ensureKline nowMonth fetchMonth fs symbol freq d
      = (some ⟨symbol, freq, d⟩, setStore fs ⟨symbol, freq, d⟩ df,
         [(d, nextMonth d)]) ∧
    lookupStore (setStore fs ⟨symbol, freq, d⟩ df) ⟨symbol, freq, d⟩
      = some df := by
  constructor
  · unfold ensureKline
    rw [if_neg (fun hand => hfin hand.2), hok]
  · exact lookupStore_setStore_self fs ⟨symbol, freq, d⟩ df

/-- Witness for C4 at a concrete in-progress month: now is 2025-01, the
partition is 2025-01 (incomplete), a stale file with one row at timestamp
0 exists and is overwritten by the freshly fetched row at timestamp 1. -/
theorem ensureKline_incomplete_refetches_witness :
    ensureKline ⟨2025, 1⟩ (fun _ _ _ _ => some [⟨1, []⟩])
        [(⟨"BTCUSDT", .m1, ⟨2025, 1⟩⟩, [⟨0, []⟩])] "BTCUSDT" .m1 ⟨2025, 1⟩
      = (some ⟨"BTCUSDT", .m1, ⟨2025, 1⟩⟩,
         [(⟨"BTCUSDT", .m1, ⟨2025, 1⟩⟩, [⟨1, []⟩])],
         [(⟨2025, 1⟩, ⟨2025, 2⟩)]) :=
  (ensureKline_incomplete_refetches ⟨2025, 1⟩ (fun _ _ _ _ => some [⟨1, []⟩])
    [(⟨"BTCUSDT", .m1, ⟨2025, 1⟩⟩, [⟨0, []⟩])] "BTCUSDT" .m1 ⟨2025, 1⟩
    [⟨1, []⟩] [⟨0, []⟩] (by decide) (by decide) rfl).1

/-- C7 (code bug): on the first retryable failure (here HTTP 500, and
likewise 502/503/504/429/408) a single call to _get_v5_market_kline raises
tenacity.TryAgain, and because the tenacity.retry decorators (dump.py
lines 382-385 and 595-598) are commented out no retry, backoff or attempt
bound exists: the exception propagates to the caller on the first attempt
instead of the call being re-attempted up to 5 times. -/
theorem getV5MarketKline_retryable_raises_first_attempt :
    getV5MarketKline 500 [] = .tryAgainExc ∧
    getV5MarketKline 502 [] = .tryAgainExc ∧
    getV5MarketKline 503 [] = .tryAgainExc ∧
    getV5MarketKline 504 [] = .tryAgainExc ∧
    getV5MarketKline 429 [] = .tryAgainExc ∧
    getV5MarketKline 408 [] = .tryAgainExc ∧
    getV5MarketKline 404 [] = .clientResponseError 404 := by decide

/-- C8: on a fresh target path, _async_download_symbol_data maps an error
status of the bulk file-dump URL as follows: 404 returns None and writes
no file, each of 500/502/503/504/429/408 raises the retryable
tenacity.TryAgain, and every other error status re-raises the original
ClientResponseError unchanged; the on-disk state is unchanged in all
three cases. -/
theorem downloadSymbolData_error_classification (fs : List String)
    (p : String) (status : Nat) (herr : 400 ≤ status) (hnew : p ∉ fs) :
    (status = 404 → downloadSymbolData fs p status = (.noData, fs)) ∧
    (status = 500 ∨ status = 502 ∨ status = 503 ∨ status = 504
        ∨ status = 429 ∨ status = 408 →
      downloadSymbolData fs p status = (.tryAgainExc, fs)) ∧
    (status ≠ 404 →
      ¬ (status = 500 ∨ status = 502 ∨ status = 503 ∨ status = 504
          ∨ status = 429 ∨ status = 408) →
      downloadSymbolData fs p status = (.clientResponseError status, fs)) := by
  refine ⟨?_, ?_, ?_⟩
  · intro h4
    simp [downloadSymbolData, hnew, h4]
  · intro hretry
    have h4 : status ≠ 404 := by omega
    simp [downloadSymbolData, hnew, h4, hretry]
  · intro h4 hretry
    simp [downloadSymbolData, hnew, h4, hretry, herr]

/-- Witness for C8 at concrete statuses: 404 yields the None return, 503
raises TryAgain, 403 re-raises the original error. -/
theorem downloadSymbolData_error_classification_witness :
    downloadSymbolData [] "p.parquet" 404 = (.noData, []) ∧
    downloadSymbolData [] "p.parquet" 503 = (.tryAgainExc, []) ∧
    downloadSymbolData [] "p.parquet" 403 = (.clientResponseError 403, []) :=
  ⟨(downloadSymbolData_error_classification [] "p.parquet" 404 (by decide)
      (by decide)).1 rfl,
   (downloadSymbolData_error_classification [] "p.parquet" 503 (by decide)
      (by decide)).2.1 (by decide),
   (downloadSymbolData_error_classification [] "p.parquet" 403 (by decide)
      (by decide)).2.2 (by decide) (by decide)⟩

/-- C9: _get_category is a total function of the asset type and symbol:
a spot dumper always answers spot; for a contract dumper a symbol ending
in USDT or USDC yields linear, a symbol ending in USD (and not in
USDT/USDC) yields inverse, and any other suffix raises the invalid-symbol
ValueError. -/
theorem getCategory_total_derivation (symbol : String) :
    getCategory .spot symbol = .ok "spot" ∧
    ((pyEndsWith symbol "USDT" || pyEndsWith symbol "USDC") = true →
      getCategory .contract symbol = .ok "linear") ∧
    ((pyEndsWith symbol "USDT" || pyEndsWith symbol "USDC") = false →
      pyEndsWith symbol "USD" = true →
      getCategory .contract symbol = .ok "inverse") ∧
    ((pyEndsWith symbol "USDT" || pyEndsWith symbol "USDC") = false →
      pyEndsWith symbol "USD" = false →
      getCategory .contract symbol
        = .error ("Symbol " ++ symbol ++ " formated wrongly, or not supported")) := by
  refine ⟨rfl, ?_, ?_, ?_⟩
  · intro h
    simp [getCategory, h]
  · intro h1 h2
    simp [getCategory, h1, h2]
  · intro h1 h2
    simp [getCategory, h1, h2]

/-- Witness for C9 at the symbols the spec names: BTCUSDT is linear,
BTCUSD is inverse, spot BTCUSDT is spot, and the unrecognized suffix of
BTCEUR is the invalid-symbol error. -/
theorem getCategory_total_derivation_witness :
    getCategory .contract "BTCUSDT" = .ok "linear" ∧
    getCategory .contract "BTCUSD" = .ok "inverse" ∧
    getCategory .spot "BTCUSDT" = .ok "spot" ∧
    getCategory .contract "BTCEUR"
      = .error ("Symbol " ++ "BTCEUR" ++ " formated wrongly, or not supported") :=
  ⟨(getCategory_total_derivation "BTCUSDT").2.1 (by decide),
   (getCategory_total_derivation "BTCUSD").2.2.1 (by decide) (by decide),
   (getCategory_total_derivation "BTCUSDT").1,
   (getCategory_total_derivation "BTCEUR").2.2.2 (by decide) (by decide)⟩

/-- C10: the effective end date of DataDumper.__init__ is clamped to one
day before the current UTC time (now1d): an omitted end date, or any end
date later than now1d, becomes now1d; being clamped is independent of the
supplied end date; and a start date later than the clamped bound raises
ValueError even when no end date was supplied at all. -/
theorem initDates_clamps_end (now1d : Int) (sg : Option Int) (e0 s0 : Int)
    (he : now1d < e0) (hs : now1d < s0) :
    clampEndDate now1d none = now1d ∧
    clampEndDate now1d (some e0) = now1d ∧
    initDates now1d sg (some e0) = initDates now1d sg none ∧
    initDates now1d (some s0) none
      = .error "Start date must be before end date" := by
  have hc : clampEndDate now1d (some e0) = now1d := by
    simp [clampEndDate, he]
  refine ⟨rfl, hc, ?_, ?_⟩
  · unfold initDates
    rw [hc]
    rfl
  · unfold initDates
    rw [if_pos]
    simpa [clampEndDate] using hs

/-- Witness for C10 at now1d = 0, end date 5 (later than now1d, clamped)
and start date 7 (later than the clamped bound, rejected). -/
theorem initDates_clamps_end_witness :
    initDates 0 (some 7) (some 5) = initDates 0 (some 7) none ∧
    initDates 0 (some 7) none = .error "Start date must be before end date" :=
  ⟨(initDates_clamps_end 0 (some 7) 5 7 (by decide) (by decide)).2.2.1,
   (initDates_clamps_end 0 (some 7) 5 7 (by decide) (by decide)).2.2.2⟩

end BybitDump
